import Mathlib

/-!
Verification development for the 6TiSCH simulator.

Each namespace below is a shallow embedding of one subsystem of the
simulator source:

* `Sim.Sixp`    — per-peer 6P sequence numbers (`SimEngine/Mote/sixp.py`)
* `Sim.Tsch`    — TX queue, enqueue, retransmissions and the backoff state
                  machine (`SimEngine/Mote/tsch.py`)
* `Sim.Engine`  — the discrete-event queue (`SimEngine/SimEngine.py`)
* `Sim.Rpl`     — Dio probability and source-route computation
                  (`SimEngine/Mote/rpl.py`)
* `Sim.Lowpan`  — 6LoWPAN fragmentation and reassembly
                  (`SimEngine/Mote/sixlowpan.py`)
* `Sim.Conn`    — propagation/interference model (`SimEngine/Connectivity.py`)

Python dicts with a fixed key set become structures with `Option` fields,
dicts with dynamic keys become association lists or functional maps,
exceptions become `Except`/`Option`, and calls to the PRNG become explicit
draw parameters.  Constants from `MoteDefines.py` (a module the stack
imports but whose file is not part of the tree) are kept as ordinary
parameters of the definitions.
-/

namespace Sim

/-- Packet types (the `d.PKT_TYPE_*` constants the stack dispatches on). -/
inductive PktType
  | DATA | FRAG | Dio | DAO | EB | JOIN_REQUEST | JOIN_RESPONSE | DIS | SIXP
deriving DecidableEq, Repr

/-- Drop reasons (the `SimLog.DROPREASON_*` constants). -/
inductive DropReason
  | TXQUEUE_FULL | NO_TX_CELLS | MAX_RETRIES | REASSEMBLY_BUFFER_FULL
  | VRB_TABLE_FULL | NO_ROUTE | TIME_EXCEEDED | RANK_ERROR
deriving DecidableEq, Repr

/-- Python runtime errors raised by the embedded code. -/
inductive PyErr
  | typeError | keyError
deriving DecidableEq, Repr

namespace Sixp

/-- `SixP.seqnum_table`: a dict indexed by neighbor id holding the per-peer
SeqNum.  A key that was never written maps to `none`. -/
def SeqnumTable : Type := Nat → Option Nat

/-- `SixP._reset_seqnum(peerMac)`: `self.seqnum_table[peerMac] = 0`. -/
def reset_seqnum (t : SeqnumTable) (peerMac : Nat) : SeqnumTable :=
  fun p => if p = peerMac then some 0 else t p

/-- `SixP._get_seqnum(peerMac)`: if the peer has no entry, reset it to 0 and
return 0; otherwise return the stored value.  Returns the updated table
together with the value. -/
def get_seqnum (t : SeqnumTable) (peerMac : Nat) : SeqnumTable × Nat :=
  match t peerMac with
  | none   => (reset_seqnum t peerMac, 0)
  | some v => (t, v)

/-- `SixP.increment_seqnum(peerMac)`: asserts the peer has an entry
(`none` models the assertion failure), adds one, and replaces `0x100`
by `1` so the value wraps `0xFF -> 1`, skipping the reserved value 0. -/
def increment_seqnum (t : SeqnumTable) (peerMac : Nat) : Option SeqnumTable :=
  match t peerMac with
  | none   => none
  | some v =>
      let v' := v + 1
      some (fun p => if p = peerMac then some (if v' = 0x100 then 1 else v') else t p)

/-- The seqnum table of a freshly constructed `SixP` instance
(`self.seqnum_table = {}`). -/
def emptyTable : SeqnumTable := fun _ => none

/-- The effect of `SixPTransaction.complete()` on the seqnum table: exactly
one call to `increment_seqnum` for the transaction's peer. -/
def complete_seqnum_effect (t : SeqnumTable) (peerMac : Nat) : Option SeqnumTable :=
  increment_seqnum t peerMac

end Sixp

namespace Tsch

/-- Cell options (`d.CELLOPTION_TX` etc.), ordered alphabetically as the
Python strings sort. -/
inductive CellOption
  | RX | SHARED | TX
deriving DecidableEq, Repr

/-- Sort key giving the alphabetical order of the Python strings. -/
def CellOption.key : CellOption → Nat
  | .RX => 0
  | .SHARED => 1
  | .TX => 2

/-- Insert into a list sorted by `CellOption.key`. -/
def insertByKey (a : CellOption) : List CellOption → List CellOption
  | [] => [a]
  | b :: bs => if a.key ≤ b.key then a :: b :: bs else b :: insertByKey a bs

/-- Python's `sorted` applied to a cell-option list. -/
def sortOptions : List CellOption → List CellOption
  | [] => []
  | a :: as => insertByKey a (sortOptions as)

/-- One schedule cell, as built by `Tsch.addCell`. -/
structure Cell where
  channelOffset : Nat
  neighbor      : Option Nat
  cellOptions   : List CellOption
  numTx         : Nat
  numTxAck      : Nat
  numRx         : Nat
deriving DecidableEq, Repr

/-- `Tsch._getCells(neighbor=None, cellOptions=opts)`: keep the schedule
entries whose sorted option list equals the sorted filter list. -/
def getCellsByOptions (schedule : List (Nat × Cell)) (opts : List CellOption) :
    List (Nat × Cell) :=
  schedule.filter (fun sc => decide (sortOptions sc.2.cellOptions = sortOptions opts))

/-- `Tsch.getTxCells()` (no neighbor filter). -/
def getTxCells (schedule : List (Nat × Cell)) : List (Nat × Cell) :=
  getCellsByOptions schedule [.TX]

/-- `Tsch.getTxRxSharedCells()` (no neighbor filter). -/
def getTxRxSharedCells (schedule : List (Nat × Cell)) : List (Nat × Cell) :=
  getCellsByOptions schedule [.TX, .RX, .SHARED]

/-- The `mac` section `Tsch.enqueue` and `txDone` operate on. -/
structure Mac where
  srcMac      : Nat
  dstMac      : Nat
  retriesLeft : Option Nat
deriving DecidableEq, Repr

/-- A queued link-layer frame (only the fields `enqueue`/`txDone` read). -/
structure Packet where
  type : PktType
  mac  : Mac
deriving DecidableEq, Repr

/-- The part of the `Tsch` object state that `enqueue` touches. -/
structure TschState where
  schedule : List (Nat × Cell)
  txQueue  : List Packet
deriving DecidableEq, Repr

/-- Result of `Tsch.enqueue`: the new state, the returned boolean, and the
drop reason logged when the packet was rejected. -/
structure EnqueueResult where
  state   : TschState
  ok      : Bool
  dropped : Option DropReason
deriving DecidableEq, Repr

/-- `Tsch.enqueue(packet)`.  `queueSize` is `d.TSCH_QUEUE_SIZE` and
`maxRetries` is `d.TSCH_MAXTXRETRIES`.  The queue-full test comes first,
then the no-TX-cell test; on success `mac.retriesLeft` is set and the
packet appended. -/
def enqueue (queueSize maxRetries : Nat) (st : TschState) (packet : Packet) :
    EnqueueResult :=
  if queueSize ≤ st.txQueue.length then
    ⟨st, false, some .TXQUEUE_FULL⟩
  else if (getTxCells st.schedule).isEmpty && (getTxRxSharedCells st.schedule).isEmpty then
    ⟨st, false, some .NO_TX_CELLS⟩
  else
    ⟨{ st with txQueue :=
        st.txQueue ++ [{ packet with mac := { packet.mac with retriesLeft := some maxRetries } }] },
      true, none⟩

/-- The view of one unicast packet that `Tsch.txDone` manipulates: whether it
is still in `txQueue`, and its `mac.retriesLeft` counter. -/
structure PktView where
  inQueue     : Bool
  retriesLeft : Nat
deriving DecidableEq, Repr

/-- Projection of the unicast branch of `Tsch.txDone(isACKed)` onto one
packet (`self.pktToSend`): on an ACK the packet is removed from the queue;
otherwise `retriesLeft` is asserted positive (`none` models the assertion
failure), decremented, and the packet is removed and dropped with reason
MAX_RETRIES when the counter reaches zero. -/
def txDoneUnicast (isACKed : Bool) (s : PktView) : Option PktView :=
  if isACKed then
    some ⟨false, s.retriesLeft⟩
  else if s.retriesLeft = 0 then
    none
  else
    let r := s.retriesLeft - 1
    if r = 0 then some ⟨false, 0⟩ else some ⟨true, r⟩

/-- Number of `txDone` invocations a packet undergoes for a given sequence
of link-layer outcomes: a packet is eligible as `pktToSend` only while it
sits in `txQueue`, and the process stops if the assertion inside `txDone`
fails. -/
def countTxDone : PktView → List Bool → Nat
  | _, [] => 0
  | s, acked :: rest =>
      if s.inQueue then
        match txDoneUnicast acked s with
        | none => 1
        | some s' => 1 + countTxDone s' rest
      else 0

/-- The backoff state owned by `Tsch`: `backoff_exponent` and
`backoff_remaining_delay`. -/
structure BackoffState where
  exponent       : Nat
  remainingDelay : Nat
deriving DecidableEq, Repr

/-- `Tsch._decide_backoff_delay()`: stores a fresh random delay.  `draw`
models the value returned by `random.randint(0, 2**BE - 1)`. -/
def decide_backoff_delay (draw : Nat) (s : BackoffState) : BackoffState :=
  { s with remainingDelay := draw }

/-- `Tsch._reset_backoff_state()` with `minBE = d.TSCH_MIN_BACKOFF_EXPONENT`. -/
def reset_backoff_state (minBE draw : Nat) (s : BackoffState) : BackoffState :=
  decide_backoff_delay draw { s with exponent := minBE }

/-- `Tsch._increase_backoff_state()` with
`maxBE = d.TSCH_MAX_BACKOFF_EXPONENT`. -/
def increase_backoff_state (maxBE draw : Nat) (s : BackoffState) : BackoffState :=
  decide_backoff_delay draw { s with exponent := min (s.exponent + 1) maxBE }

/-- `Tsch._update_backoff_state(isRetransmission, isSharedLink, isTXSuccess)`.
`txQueueLen` is `len(self.getTxQueue())` at the time of the call. -/
def update_backoff_state (minBE maxBE draw txQueueLen : Nat)
    (isRetransmission isSharedLink isTXSuccess : Bool) (s : BackoffState) :
    BackoffState :=
  if isSharedLink then
    if isTXSuccess then
      reset_backoff_state minBE draw s
    else
      if isRetransmission then
        increase_backoff_state maxBE draw s
      else
        reset_backoff_state minBE draw s
  else
    if isTXSuccess then
      if txQueueLen = 0 then reset_backoff_state minBE draw s else s
    else
      s

end Tsch

namespace Engine

/-- One entry of `SimEngine.events`: the tuple `(asn, priority, cb, uniqueTag)`
with the callback left out (it is never inspected by the queue logic).
`τ` is the type of unique tags. -/
structure Event (τ : Type) where
  asn      : Nat
  priority : Nat
  tag      : Option τ
deriving DecidableEq, Repr

/-- `SimEngine.removeEvent(uniqueTag, exceptCurrentASN)`: pop every event
whose tag matches, unless `exceptCurrentASN` holds and the event sits at
the current ASN. -/
def removeEvent {τ : Type} [DecidableEq τ] (cur : Nat) (uniqueTag : τ)
    (exceptCurrentASN : Bool) (events : List (Event τ)) : List (Event τ) :=
  events.filter
    (fun e => !(e.tag == some uniqueTag && !(exceptCurrentASN && e.asn == cur)))

/-- The insertion loop of `SimEngine.scheduleAtAsn`: advance while the
scanned event is at an earlier ASN, or at the same ASN with a priority at
most the new one, and insert there. -/
def insertEvent {τ : Type} (e : Event τ) : List (Event τ) → List (Event τ)
  | [] => [e]
  | x :: xs =>
      if x.asn < e.asn ∨ (x.asn = e.asn ∧ x.priority ≤ e.priority) then
        x :: insertEvent e xs
      else
        e :: x :: xs

/-- `SimEngine.scheduleAtAsn(asn, cb, uniqueTag, priority)` with the default
`exceptCurrentASN=True`: `none` models the `assert asn > self.asn` failure;
otherwise previous events with the same tag (away from the current ASN)
are removed and the new event is inserted at its sorted position. -/
def scheduleAtAsn {τ : Type} [DecidableEq τ] (cur asn priority : Nat)
    (uniqueTag : Option τ) (events : List (Event τ)) : Option (List (Event τ)) :=
  if asn ≤ cur then
    none
  else
    let cleaned :=
      match uniqueTag with
      | some t => removeEvent cur t true events
      | none   => events
    some (insertEvent ⟨asn, priority, uniqueTag⟩ cleaned)

/-- The order the event list is kept in: ascending ASN, and ascending
priority within an ASN (ties keep insertion order). -/
def evLE {τ : Type} (a b : Event τ) : Prop :=
  a.asn < b.asn ∨ (a.asn = b.asn ∧ a.priority ≤ b.priority)

instance {τ : Type} : DecidableRel (evLE (τ := τ)) := by
  intro a b
  unfold evLE
  infer_instance

/-- Strictly later in the event order: later ASN, or same ASN with strictly
larger priority. -/
def evLT {τ : Type} (a b : Event τ) : Prop :=
  a.asn < b.asn ∨ (a.asn = b.asn ∧ a.priority < b.priority)

end Engine

namespace Rpl

/-- The probability computed at the top of `Rpl._action_sendDIO`:
`tsch_probBcast_dioProb / len(areAllNeighborsJoined())` when that list is
non-empty (Python truthiness of its length), else `tsch_probBcast_dioProb`
itself.  `joined` is the list returned by
`secjoin.areAllNeighborsJoined()`. -/
def computeDioProb (dioProb : ℚ) (joined : List Nat) : ℚ :=
  if joined.length ≠ 0 then dioProb / joined.length else dioProb

/-- The Dio packet literal `newDIO` built inside `Rpl._action_sendDIO`:
`type` is Dio and the `app` section holds the mote's current `self.rank`
(`none` while the rank is still unset). -/
structure DioPacket where
  type     : PktType
  app_rank : Option Nat
  net_srcIp : Nat
deriving DecidableEq, Repr

/-- `newDIO = {'type': Dio, 'app': {'rank': self.rank}, 'net': {...}}`. -/
def create_Dio (rank : Option Nat) (moteId : Nat) : DioPacket :=
  ⟨.Dio, rank, moteId⟩

/-- The Dio probability as the claim states it: `tsch_probBcast_dioProb`
divided by one plus the number of joined neighbours. -/
def specDioProbClaim (dioProb : ℚ) (numJoined : Nat) : ℚ :=
  dioProb / (1 + numJoined)

/-- The Dio probability the code actually computes, stated arithmetically:
`tsch_probBcast_dioProb / numJoined` when at least one neighbour is joined,
`tsch_probBcast_dioProb` itself otherwise. -/
def specDioProbAmended (dioProb : ℚ) (numJoined : Nat) : ℚ :=
  if 0 < numJoined then dioProb / numJoined else dioProb

/-- `Rpl.parentChildfromDAOs`: the child -> parent dict the root builds from
received DAOs. -/
def ParentMap : Type := Nat → Option Nat

/-- The `while` loop of `Rpl.computeSourceRoute`, run with `fuel` remaining
iterations.  The overall result is

* `none`                 — the loop is still running after `fuel` iterations;
* `some none`            — a lookup raised `KeyError`, so the method raises
                           `NoSourceRouteError`;
* `some (some route)`    — the loop reached mote 0 and the method returns
                           the accumulated hops reversed. -/
def sourceRouteLoop (pc : ParentMap) : Nat → Nat → List Nat → Option (Option (List Nat))
  | 0, _, _ => none
  | fuel + 1, cur, acc =>
      if cur = 0 then
        some (some acc.reverse)
      else
        match pc cur with
        | none => some none
        | some parent => sourceRouteLoop pc fuel parent (acc ++ [cur])

/-- `Rpl.computeSourceRoute(dest_id)` with an explicit iteration budget. -/
def computeSourceRoute (pc : ParentMap) (dest_id fuel : Nat) :
    Option (Option (List Nat)) :=
  sourceRouteLoop pc fuel dest_id []

/-- The value held by the loop variable `cur_id` after `n` successful
lookups in `parentChildfromDAOs`, starting from `dest_id` (`none` once a
lookup has failed). -/
def iterParent (pc : ParentMap) (dest_id : Nat) : Nat → Option Nat
  | 0 => some dest_id
  | n + 1 => (iterParent pc dest_id n).bind pc

/-- The chain of lookups from `dest_id` stops after `n` steps: either mote 0
is reached, or the next lookup would raise `KeyError`. -/
def stopsAt (pc : ParentMap) (dest_id n : Nat) : Prop :=
  iterParent pc dest_id n = some 0 ∨
    (∃ c, iterParent pc dest_id n = some c ∧ c ≠ 0 ∧ pc c = none)

end Rpl

namespace Pister

/-- Number of formal parameters of `ConnectivityPisterHack._compute_rssi_pisterhack`
as written in the source: `(mote, neighbor)` and no `self`. -/
def paramCount : Nat := 2

/-- Number of arguments the call site
`self._compute_rssi_pisterhack(source, destination)` passes: the bound
receiver plus the two explicit arguments. -/
def callArgCount : Nat := 3

/-- A Python 2 bound-method call: the body runs only when the argument
count matches the parameter count, otherwise the interpreter raises
`TypeError` before the body executes.  `body` stands for whatever the
method would compute were the signature consistent. -/
def callComputeRssiPisterhack {V : Type} (body : Nat → Nat → V)
    (source destination : Nat) : Except PyErr V :=
  if callArgCount = paramCount then
    .ok (body source destination)
  else
    .error .typeError

/-- `ConnectivityPisterHack._init_connectivity_matrix`: for every source,
destination and channel, call `_compute_rssi_pisterhack`, derive a PDR and
store both in the matrix.  `setCell` abstracts the matrix update,
`rssiToPdr` the `_rssi_to_pdr` conversion. -/
def init_connectivity_matrix {V M : Type} (body : Nat → Nat → V)
    (rssiToPdr : V → V) (setCell : M → Nat → Nat → Nat → V → V → M)
    (motes : List Nat) (numChans : Nat) (matrix : M) : Except PyErr M :=
  motes.foldlM
    (fun acc source =>
      motes.foldlM
        (fun acc2 destination =>
          (List.range numChans).foldlM
            (fun acc3 channel => do
              let rssi ← callComputeRssiPisterhack body source destination
              let pdr := rssiToPdr rssi
              pure (setCell acc3 source destination channel rssi pdr))
            acc2)
        acc)
    matrix

end Pister

namespace Lowpan

/-- The MAC header carried by 6LoWPAN packets and fragments. -/
structure Mac where
  srcMac : Nat
  dstMac : Nat
deriving DecidableEq, Repr

/-- The `net` dict of a packet.  Keys that may be absent are `Option`;
`none` means the key is not in the dict. -/
structure NetHdr where
  srcIp                : Option Nat
  dstIp                : Option Nat
  hop_limit            : Option Nat
  packet_length        : Option Nat
  downward             : Option Bool
  sourceRoute          : Option (List Nat)
  rank_error           : Option Bool
  datagram_size        : Option Nat
  datagram_tag         : Option Nat
  datagram_offset      : Option Nat
  original_packet_type : Option PktType
deriving DecidableEq, Repr

/-- A 6LoWPAN-level packet: `type`, optional `app` payload, `net` header and
optional `mac` header. -/
structure Packet (App : Type) where
  type : PktType
  app  : Option App
  net  : NetHdr
  mac  : Option Mac
deriving DecidableEq, Repr

/-- Python dict update `base.update(upd)` on `net` headers: every key present
in `upd` overwrites the one in `base`, absent keys keep `base`'s value
(mirrors `for key, value in packet['net'].items(): fragment['net'][key] = value`). -/
def dictUpdate (base upd : NetHdr) : NetHdr where
  srcIp                := upd.srcIp.orElse fun _ => base.srcIp
  dstIp                := upd.dstIp.orElse fun _ => base.dstIp
  hop_limit            := upd.hop_limit.orElse fun _ => base.hop_limit
  packet_length        := upd.packet_length.orElse fun _ => base.packet_length
  downward             := upd.downward.orElse fun _ => base.downward
  sourceRoute          := upd.sourceRoute.orElse fun _ => base.sourceRoute
  rank_error           := upd.rank_error.orElse fun _ => base.rank_error
  datagram_size        := upd.datagram_size.orElse fun _ => base.datagram_size
  datagram_tag         := upd.datagram_tag.orElse fun _ => base.datagram_tag
  datagram_offset      := upd.datagram_offset.orElse fun _ => base.datagram_offset
  original_packet_type := upd.original_packet_type.orElse fun _ => base.original_packet_type

/-- The empty `net` dict. -/
def emptyNet : NetHdr :=
  ⟨none, none, none, none, none, none, none, none, none, none, none⟩

/-- `fragment['net']['packet_length']` for fragment `i` of a packet of
length `L` with payload limit `m`: the slop goes in the first fragment
when `L` is not a multiple of `m`, all other fragments carry `m`. -/
def fragLen (m L i : Nat) : Nat :=
  if i = 0 ∧ L % m ≠ 0 then L % m else m

/-- Fragment number `i` (out of `n`) built by the loop body of
`Fragmentation.fragmentPacket`, with running `datagram_offset` `offset`. -/
def mkFragment {App : Type} (m L tag n : Nat) (pkt : Packet App) (i offset : Nat) :
    Packet App :=
  let base : NetHdr :=
    { emptyNet with
        datagram_size   := some L
        datagram_tag    := some tag
        datagram_offset := some offset }
  let net0 := if i = 0 then dictUpdate base pkt.net else base
  let net1 :=
    if i ≠ 0 ∧ i = n - 1 then
      { net0 with original_packet_type := some pkt.type }
    else net0
  { type := .FRAG
    app  := if i ≠ 0 ∧ i = n - 1 then pkt.app else none
    net  := { net1 with packet_length := some (fragLen m L i) }
    mac  := pkt.mac }

/-- The `for i in range(0, number_of_fragments)` loop of `fragmentPacket`,
with `k` iterations left, current index `i` and running `datagram_offset`. -/
def fragBuild {App : Type} (m L tag n : Nat) (pkt : Packet App) :
    Nat → Nat → Nat → List (Packet App)
  | 0, _, _ => []
  | k + 1, i, offset =>
      mkFragment m L tag n pkt i offset ::
        fragBuild m L tag n pkt k (i + 1) (offset + fragLen m L i)

/-- `Fragmentation.fragmentPacket(packet)` with payload limit
`m = settings.tsch_max_payload_len` and outgoing datagram tag `tag`:
packets no longer than `m` are returned unchanged, longer ones are cut
into `ceil(L / m)` fragments. -/
def fragmentPacket {App : Type} (m tag : Nat) (pkt : Packet App) : List (Packet App) :=
  let L := pkt.net.packet_length.getD 0
  if m < L then
    let n := (L + m - 1) / m
    fragBuild m L tag n pkt n 0 0
  else
    [pkt]

/-- The value of the running `datagram_offset` before fragment `i` is
built: the sum of the lengths of the previous fragments. -/
def offAt (m L : Nat) : Nat → Nat
  | 0 => 0
  | i + 1 => offAt m L i + fragLen m L i

/-- One stored fragment record inside a reassembly buffer:
`{'datagram_offset': ..., 'fragment_length': ...}`. -/
structure FragRec where
  datagram_offset : Nat
  fragment_length : Nat
deriving DecidableEq, Repr

/-- One reassembly buffer
(`{'expiration': ..., ['net': ...,] 'fragments': [...]}`). -/
structure BufEntry where
  expiration : Nat
  net        : Option NetHdr
  fragments  : List FragRec
deriving DecidableEq, Repr

/-- `Fragmentation.reassembly_buffers` flattened: the nested
`srcMac -> datagram_tag -> entry` dicts become an association list keyed
by the `(srcMac, datagram_tag)` pair. -/
abbrev Buffers : Type := List ((Nat × Nat) × BufEntry)

/-- Look up the buffer for a `(srcMac, tag)` key. -/
def lookupBuf (bufs : Buffers) (key : Nat × Nat) : Option BufEntry :=
  (bufs.find? (fun kv => kv.1 == key)).map (fun kv => kv.2)

/-- Replace the buffer stored at `key`. -/
def setBuf (bufs : Buffers) (key : Nat × Nat) (e : BufEntry) : Buffers :=
  bufs.map (fun kv => if kv.1 == key then (kv.1, e) else kv)

/-- Delete the buffer stored at `key` (`del self.reassembly_buffers[...]`,
including the cleanup of the emptied per-srcMac dict). -/
def eraseBuf (bufs : Buffers) (key : Nat × Nat) : Buffers :=
  bufs.filter (fun kv => !(kv.1 == key))

/-- `Fragmentation._delete_expired_reassembly_buffer()`. -/
def deleteExpired (asn : Nat) (bufs : Buffers) : Buffers :=
  bufs.filter (fun kv => !(kv.2.expiration < asn))

/-- Total number of reassembly buffers across all source MACs
(`total_reassembly_buffers_num`). -/
def totalBuffers (bufs : Buffers) : Nat := bufs.length

/-- The configuration and environment `reassemblePacket` reads:
whether the mote is the DAG root, `settings.sixlowpan_reassembly_buffers_num`,
the current ASN, and the buffer lifetime in slots. -/
structure RCfg where
  dagRoot    : Bool
  buffersNum : Nat
  asn        : Nat
  lifetime   : Nat
deriving DecidableEq, Repr

/-- Outcome of one `reassemblePacket` call. -/
inductive ReasmOut (App : Type)
  | nothing
  | dropped (r : DropReason)
  | completed (p : Packet App)
  | crashed (e : PyErr)
deriving DecidableEq

/-- `copy.deepcopy(fragment['net'])` followed by deleting `datagram_size`,
`datagram_offset` and `datagram_tag` (the `net` stored in the buffer when
the offset-0 fragment arrives). -/
def stripDatagramFields (n : NetHdr) : NetHdr :=
  { n with datagram_size := none, datagram_offset := none, datagram_tag := none }

/-- `Fragmentation.reassemblePacket(fragment)`: expire old buffers, allocate
a buffer for the `(srcMac, datagram_tag)` key (dropping the fragment with
REASSEMBLY_BUFFER_FULL when a non-root mote has no room), ignore duplicate
offsets, record the fragment (the offset-0 fragment also deposits the `net`
header), and emit the reassembled packet once the recorded lengths reach
`datagram_size`.  `crashed` models a Python `KeyError` on a missing dict
key. -/
def reassemblePacket {App : Type} (cfg : RCfg) (bufs : Buffers) (frag : Packet App) :
    Buffers × ReasmOut App :=
  match frag.mac, frag.net.datagram_size, frag.net.datagram_offset,
        frag.net.datagram_tag, frag.net.packet_length with
  | some mac, some dsize, some doffset, some dtag, some plen =>
      let bufs1 := deleteExpired cfg.asn bufs
      let key := (mac.srcMac, dtag)
      let alloc : Option Buffers :=
        match lookupBuf bufs1 key with
        | some _ => some bufs1
        | none =>
            if !cfg.dagRoot && totalBuffers bufs1 == cfg.buffersNum then
              none
            else
              some (bufs1 ++
                [(key, ⟨cfg.asn + cfg.lifetime, none, []⟩)])
      match alloc with
      | none => (bufs1, .dropped .REASSEMBLY_BUFFER_FULL)
      | some bufs2 =>
          match lookupBuf bufs2 key with
          | none => (bufs2, .crashed .keyError)
          | some entry =>
              if doffset ∈ entry.fragments.map (fun f => f.datagram_offset) then
                (bufs2, .nothing)
              else
                let entry1 :=
                  if doffset = 0 then
                    { entry with net := some (stripDatagramFields frag.net) }
                  else entry
                let entry2 :=
                  { entry1 with fragments := entry1.fragments ++ [⟨doffset, plen⟩] }
                let bufs3 := setBuf bufs2 key entry2
                let total :=
                  (entry2.fragments.map (fun f => f.fragment_length)).sum
                if total < dsize then
                  (bufs3, .nothing)
                else
                  match frag.net.original_packet_type, entry2.net with
                  | some t, some snet =>
                      (eraseBuf bufs3 key,
                        .completed
                          { type := t
                            app  := frag.app
                            net  := { snet with packet_length := some dsize }
                            mac  := frag.mac })
                  | _, _ => (bufs3, .crashed .keyError)
  | _, _, _, _, _ => (bufs, .crashed .keyError)

/-- A concrete DATA packet used to exercise the fragmentation path. -/
def samplePacket : Packet Nat :=
  { type := .DATA
    app  := some 7
    net  := ⟨some 11, some 0, some 64, some 5, some false, none, none, none, none,
             none, none⟩
    mac  := some ⟨1, 2⟩ }

/-- A concrete reassembly configuration: a non-root mote with one
reassembly buffer. -/
def sampleCfg : RCfg := ⟨false, 1, 100, 50⟩

/-- Feed a list of fragments, in order, through `reassemblePacket`,
collecting each call's outcome. -/
def feedFrags {App : Type} (cfg : RCfg) :
    Buffers → List (Packet App) → Buffers × List (ReasmOut App)
  | bufs, [] => (bufs, [])
  | bufs, f :: fs =>
      let step := reassemblePacket cfg bufs f
      let rest := feedFrags cfg step.1 fs
      (rest.1, step.2 :: rest.2)

end Lowpan

namespace Conn

/-- `ConnectivityBase._dBm_to_mW`: `math.pow(10.0, dBm / 10.0)`. -/
noncomputable def dBm_to_mW (dBm : ℝ) : ℝ := (10 : ℝ) ^ (dBm / 10)

/-- `ConnectivityBase._mW_to_dBm`: `10 * math.log10(mW)`. -/
noncomputable def mW_to_dBm (mW : ℝ) : ℝ := 10 * Real.logb 10 mW

/-- `Radio.noisepower` (dBm), a constant of `radio.py`. -/
def noisepower : ℝ := -105

/-- The empirical `rssi_pdr_table` of `ConnectivityBase._rssi_to_pdr`,
keyed by integer RSSI; keys outside the table are never read by the
in-range branch and default to 0. -/
noncomputable def rssi_pdr_table (k : ℤ) : ℝ :=
  if k = -97 then 0.0000
  else if k = -96 then 0.1494
  else if k = -95 then 0.2340
  else if k = -94 then 0.4071
  else if k = -93 then 0.6359
  else if k = -92 then 0.6866
  else if k = -91 then 0.7476
  else if k = -90 then 0.8603
  else if k = -89 then 0.8702
  else if k = -88 then 0.9324
  else if k = -87 then 0.9427
  else if k = -86 then 0.9562
  else if k = -85 then 0.9611
  else if k = -84 then 0.9739
  else if k = -83 then 0.9745
  else if k = -82 then 0.9844
  else if k = -81 then 0.9854
  else if k = -80 then 0.9903
  else if k = -79 then 1.0000
  else 0

/-- `ConnectivityBase._rssi_to_pdr(rssi)`: clamp below −97 dBm to PDR 0 and
above −79 dBm to PDR 1, otherwise interpolate linearly between the table
values at `floor(rssi)` and `floor(rssi)+1`. -/
noncomputable def rssi_to_pdr (rssi : ℝ) : ℝ :=
  if rssi < -97 then 0
  else if rssi > -79 then 1
  else
    let floorRssi : ℤ := ⌊rssi⌋
    let pdrLow := rssi_pdr_table floorRssi
    let pdrHigh := rssi_pdr_table (floorRssi + 1)
    (pdrHigh - pdrLow) * (rssi - (floorRssi : ℝ)) + pdrLow

/-- `ConnectivityBase._compute_pdr_with_interference`: `noise_dBm` is the
listener's `radio.noisepower`, `rssi_lock` the RSSI of the locked-on
transmission at the listener, `interferer_rssis` the RSSIs of the
interfering transmissions, and `lockon_pdr` the link's stored `pdr`.
When the locked-on signal power in mW falls below the noise power the
function returns the literal `-10.0` (the comment in the source says
"return very low SINR (-10.0dB)"); otherwise it computes the SINR,
converts it back to an equivalent RSSI under pure-noise conditions, maps
that through the RSSI→PDR table and multiplies by `lockon_pdr`. -/
noncomputable def compute_pdr_with_interference (noise_dBm rssi_lock : ℝ)
    (interferer_rssis : List ℝ) (lockon_pdr : ℝ) : ℝ :=
  let noise_mW := dBm_to_mW noise_dBm
  let signal_mW := dBm_to_mW rssi_lock - noise_mW
  if signal_mW < 0 then
    -10
  else
    let totalInterference_mW :=
      (interferer_rssis.map
        (fun r =>
          let interference_mW := dBm_to_mW r - noise_mW
          if interference_mW < 0 then 0 else interference_mW)).sum
    let sinr_dB := mW_to_dBm (signal_mW / (totalInterference_mW + noise_mW))
    let interference_rssi :=
      mW_to_dBm (dBm_to_mW (sinr_dB + noise_dBm) + dBm_to_mW noise_dBm)
    let interference_pdr := rssi_to_pdr interference_rssi
    lockon_pdr * interference_pdr

/-- The delivery decision in `ConnectivityBase.propagate`:
`random.random() < pdr`, where `draw` is the uniform sample in `[0, 1)`. -/
def delivers (draw pdr : ℝ) : Prop := draw < pdr

end Conn

/-! ## Theorems -/

namespace Tsch

/-- Claim C4 is false on the code: a unicast transmission on a SHARED cell
that completes without an ACK does not always increase the backoff
exponent — when the attempt is not a retransmission the exponent is reset
instead.  With `minBE = 1`, `maxBE = 7` and current exponent 5, a failed
first attempt on a shared link yields exponent 1, not `min (5+1) 7 = 6`. -/
theorem claim_C4_counterexample :
    (update_backoff_state 1 7 0 0 false true false ⟨5, 4⟩).exponent = 1 ∧
    (update_backoff_state 1 7 0 0 false true false ⟨5, 4⟩).exponent ≠ min (5 + 1) 7 := by
  decide

/-- Claim C4 (amended): on a shared link an un-ACKed *retransmission*
increases the backoff exponent by one capped at `maxBE`, an un-ACKed first
attempt resets it to `minBE`, and an ACKed transmission resets it to
`minBE`; on a non-shared link a failed transmission leaves the backoff
state untouched and a successful one resets it if and only if the TX queue
is then empty. -/
theorem claim_C4 (minBE maxBE draw txQueueLen : Nat) (isRetransmission : Bool)
    (s : BackoffState) :
    (update_backoff_state minBE maxBE draw txQueueLen isRetransmission true true s).exponent
        = minBE
    ∧ (update_backoff_state minBE maxBE draw txQueueLen true true false s).exponent
        = min (s.exponent + 1) maxBE
    ∧ (update_backoff_state minBE maxBE draw txQueueLen false true false s).exponent
        = minBE
    ∧ update_backoff_state minBE maxBE draw txQueueLen isRetransmission false false s = s
    ∧ update_backoff_state minBE maxBE draw txQueueLen isRetransmission false true s
        = (if txQueueLen = 0 then reset_backoff_state minBE draw s else s) := by
  refine ⟨?_, ?_, ?_, ?_, ?_⟩ <;>
    simp [update_backoff_state, reset_backoff_state, increase_backoff_state,
      decide_backoff_delay]

end Tsch

namespace Sixp

/-- Claim C7: the per-peer 6P SeqNum starts at 0; a transaction completion
increments it by exactly one, except that `0xFF` wraps to 1 (never to 0);
therefore 0 is reserved for the initial/reset state and is never produced
by an increment, and below `0xFF` the value strictly increases. -/
theorem claim_C7 (t : SeqnumTable) (peerMac v : Nat)
    (hv : t peerMac = some v) (hle : v ≤ 255) :
    (get_seqnum emptyTable peerMac).2 = 0 ∧
    ∃ t', complete_seqnum_effect t peerMac = some t' ∧
      t' peerMac = some (if v = 255 then 1 else v + 1) ∧
      (∀ w, t' peerMac = some w → 1 ≤ w ∧ w ≤ 255) ∧
      t' peerMac ≠ some 0 := by
  refine ⟨rfl, ?_⟩
  unfold complete_seqnum_effect increment_seqnum
  rw [hv]
  refine ⟨_, rfl, ?_, ?_, ?_⟩ <;>
    simp only [eq_self_iff_true, if_true, ne_eq, Option.some.injEq]
  · rcases eq_or_ne v 255 with h | h
    · subst h; norm_num
    · rw [if_neg (by omega), if_neg h]
  · intro w hw
    split_ifs at hw <;> omega
  · split_ifs <;> exact not_false

/-- Claim C7 witness at a concrete table holding SeqNum `0xFF` for peer 3:
the stored value wraps to 1. -/
theorem claim_C7_witness :
    (get_seqnum emptyTable 3).2 = 0 ∧
    ∃ t', complete_seqnum_effect (fun p => if p = 3 then some 255 else none) 3 = some t' ∧
      t' 3 = some 1 := by
  have h := claim_C7 (fun p => if p = 3 then some 255 else none) 3 255 (by simp) (by decide)
  obtain ⟨h1, t', h2, h3, -⟩ := h
  exact ⟨h1, t', h2, by simpa using h3⟩

end Sixp

namespace Rpl

/-- Claim C8 is false on the code: with one joined neighbour,
`_action_sendDIO` computes `dioProb / 1 = dioProb` (here `1/2`), not
`dioProb / (1 + 1)` as the claim states. -/
theorem claim_C8_counterexample :
    computeDioProb (1/2) [7] = 1/2 ∧
    computeDioProb (1/2) [7] ≠ specDioProbClaim (1/2) 1 := by
  constructor <;> norm_num [computeDioProb, specDioProbClaim]

/-- Claim C8 (amended): on each scheduled Dio occasion `_action_sendDIO`
decides to send with probability `tsch_probBcast_dioProb` divided by the
number of joined neighbours when at least one neighbour is joined, and
`tsch_probBcast_dioProb` itself otherwise; the Dio it creates carries the
mote's current rank in its `app` section. -/
theorem claim_C8 (dioProb : ℚ) (joined : List Nat) (rank : Option Nat) (moteId : Nat) :
    computeDioProb dioProb joined = specDioProbAmended dioProb joined.length ∧
    (create_Dio rank moteId).type = .Dio ∧
    (create_Dio rank moteId).app_rank = rank := by
  refine ⟨?_, rfl, rfl⟩
  unfold computeDioProb specDioProbAmended
  rcases Nat.eq_zero_or_pos joined.length with h | h
  · simp [h]
  · simp [h, Nat.pos_iff_ne_zero.mp h]

end Rpl

/-- Folding a step that always fails over a non-empty list fails. -/
theorem foldlM_error_of_forall {α β : Type} (g : β → α → Except PyErr β) (e : PyErr)
    (h : ∀ b x, g b x = .error e) :
    ∀ (l : List α) (b : β), l ≠ [] → l.foldlM g b = .error e := by
  intro l
  cases l with
  | nil => simp
  | cons x xs =>
      intro b _
      rw [List.foldlM_cons, h]
      rfl

namespace Pister

/-- Claim C9: `ConnectivityPisterHack._init_connectivity_matrix` never
obtains an RSSI from `_compute_rssi_pisterhack`: the method has two formal
parameters but the bound call passes three arguments, so the very first
call raises `TypeError` and the connectivity matrix is never populated. -/
theorem claim_C9 {V M : Type} (body : Nat → Nat → V) (rssiToPdr : V → V)
    (setCell : M → Nat → Nat → Nat → V → V → M) (motes : List Nat)
    (numChans : Nat) (matrix : M) (hm : motes ≠ []) (hc : numChans ≠ 0) :
    init_connectivity_matrix body rssiToPdr setCell motes numChans matrix =
      .error .typeError := by
  unfold init_connectivity_matrix
  refine foldlM_error_of_forall _ _ (fun b x => ?_) motes matrix hm
  refine foldlM_error_of_forall _ _ (fun b2 x2 => ?_) motes b hm
  refine foldlM_error_of_forall _ _ (fun b3 x3 => ?_) (List.range numChans) b2 ?_
  · rw [show callComputeRssiPisterhack body x x2 = .error .typeError from rfl]
    rfl
  · simpa using hc

/-- Claim C9 witness: two motes and one channel. -/
theorem claim_C9_witness :
    init_connectivity_matrix (V := Nat) (M := Nat) (fun _ _ => 0) id
      (fun m _ _ _ _ _ => m) [0, 1] 1 0 = .error .typeError :=
  claim_C9 _ _ _ _ _ _ (by decide) (by decide)

end Pister

namespace Tsch

/-- A packet already removed from the TX queue undergoes no further
`txDone` invocation. -/
theorem countTxDone_of_not_inQueue (s : PktView) (l : List Bool)
    (h : s.inQueue = false) : countTxDone s l = 0 := by
  cases l <;> simp [countTxDone, h]

/-- Bound on the number of `txDone` invocations of one packet. -/
theorem countTxDone_le (l : List Bool) :
    ∀ s : PktView, countTxDone s l ≤ max 1 s.retriesLeft := by
  induction l with
  | nil => intro s; simp [countTxDone]
  | cons a rest ih =>
      intro s
      by_cases hq : s.inQueue
      · cases a
        · by_cases hr : s.retriesLeft = 0
          · simp [countTxDone, hq, txDoneUnicast, hr]
          · by_cases hr1 : s.retriesLeft - 1 = 0
            · simp [countTxDone, hq, txDoneUnicast, hr, hr1,
                countTxDone_of_not_inQueue]
            · have h2 := ih ⟨true, s.retriesLeft - 1⟩
              simp only [countTxDone, hq, txDoneUnicast, hr, hr1,
                if_false, if_true, ite_false, ite_true] at h2 ⊢
              simp only [Bool.false_eq_true, if_false] at h2 ⊢
              omega
        · simp [countTxDone, hq, txDoneUnicast, countTxDone_of_not_inQueue]
      · have hq' : s.inQueue = false := by revert hq; cases s.inQueue <;> simp
        simp [countTxDone_of_not_inQueue s (a :: rest) hq']

/-- Claim C3: `enqueue` returns `False` and leaves the queue unchanged
exactly when the queue is full (drop reason TXQUEUE_FULL) or the mote has
neither a dedicated TX cell nor a TX/RX/SHARED cell (drop reason
NO_TX_CELLS); otherwise it stores the packet with
`mac.retriesLeft = TSCH_MAXTXRETRIES` appended at the back and returns
`True`; consequently `enqueue` preserves `len(txQueue) ≤ TSCH_QUEUE_SIZE`. -/
theorem claim_C3 (queueSize maxRetries : Nat) (st : TschState) (packet : Packet)
    (hDio : packet.type ≠ .Dio) (hEb : packet.type ≠ .EB) :
    ((enqueue queueSize maxRetries st packet).ok = false ↔
      (queueSize ≤ st.txQueue.length ∨
        ((getTxCells st.schedule).isEmpty = true ∧
         (getTxRxSharedCells st.schedule).isEmpty = true)))
    ∧ (queueSize ≤ st.txQueue.length →
        enqueue queueSize maxRetries st packet = ⟨st, false, some .TXQUEUE_FULL⟩)
    ∧ (st.txQueue.length < queueSize →
        (getTxCells st.schedule).isEmpty = true →
        (getTxRxSharedCells st.schedule).isEmpty = true →
        enqueue queueSize maxRetries st packet = ⟨st, false, some .NO_TX_CELLS⟩)
    ∧ ((enqueue queueSize maxRetries st packet).ok = true →
        (enqueue queueSize maxRetries st packet).state.txQueue =
          st.txQueue ++
            [{ packet with mac := { packet.mac with retriesLeft := some maxRetries } }] ∧
        (enqueue queueSize maxRetries st packet).dropped = none)
    ∧ (st.txQueue.length ≤ queueSize →
        (enqueue queueSize maxRetries st packet).state.txQueue.length ≤ queueSize) := by
  unfold enqueue
  by_cases h1 : queueSize ≤ st.txQueue.length
  · simp [h1]
  · by_cases h2 :
      ((getTxCells st.schedule).isEmpty && (getTxRxSharedCells st.schedule).isEmpty) = true
    · rw [Bool.and_eq_true] at h2
      simp [h1, h2.1, h2.2]
    · have h2' : ¬((getTxCells st.schedule).isEmpty = true ∧
          (getTxRxSharedCells st.schedule).isEmpty = true) := by
        simpa [Bool.and_eq_true] using h2
      rw [if_neg h1, if_neg h2]
      refine ⟨by
          simp only [List.isEmpty_iff] at h2'
          simp [h1]
          exact fun ha hb => h2' ⟨ha, hb⟩,
        fun h => absurd h h1,
        fun _ ha hb => absurd ⟨ha, hb⟩ h2', fun _ => ⟨rfl, rfl⟩, fun _ => ?_⟩
      simp only [List.length_append, List.length_cons, List.length_nil]
      omega

/-- Claim C3 witness: a mote with the minimal shared cell and an empty
queue accepts a DATA packet and stays within the queue bound. -/
theorem claim_C3_witness :
    (enqueue 10 5 ⟨[(0, ⟨0, none, [.TX, .RX, .SHARED], 0, 0, 0⟩)], []⟩
        ⟨.DATA, ⟨1, 2, none⟩⟩).state.txQueue.length ≤ 10 :=
  (claim_C3 10 5 _ _ (by decide) (by decide)).2.2.2.2 (by decide)

/-- Claim C2: a unicast packet accepted by `enqueue` enters the queue with
`mac.retriesLeft = TSCH_MAXTXRETRIES`, and for any sequence of link-layer
outcomes the packet is handed to `txDone` at most `1 + TSCH_MAXTXRETRIES`
times: each un-ACKed attempt decrements the counter, and the packet leaves
the queue on an ACK or when the counter reaches zero (drop reason
MAX_RETRIES), never to be transmitted again. -/
theorem claim_C2 (queueSize maxRetries : Nat) (st : TschState) (packet : Packet)
    (outcomes : List Bool)
    (hok : (enqueue queueSize maxRetries st packet).ok = true) :
    (enqueue queueSize maxRetries st packet).state.txQueue.getLast? =
      some { packet with mac := { packet.mac with retriesLeft := some maxRetries } } ∧
    countTxDone ⟨true, maxRetries⟩ outcomes ≤ 1 + maxRetries := by
  constructor
  · have h1 : ¬queueSize ≤ st.txQueue.length := by
      by_contra h
      unfold enqueue at hok
      rw [if_pos h] at hok
      exact absurd hok (by simp)
    have h2 : ¬((getTxCells st.schedule).isEmpty &&
        (getTxRxSharedCells st.schedule).isEmpty) = true := by
      by_contra h
      unfold enqueue at hok
      rw [if_neg h1, if_pos h] at hok
      exact absurd hok (by simp)
    unfold enqueue
    rw [if_neg h1, if_neg h2]
    show (st.txQueue ++
        [{ packet with mac := { packet.mac with retriesLeft := some maxRetries } }]).getLast? = _
    rw [List.getLast?_concat]
  · calc countTxDone ⟨true, maxRetries⟩ outcomes ≤ max 1 maxRetries :=
          countTxDone_le outcomes ⟨true, maxRetries⟩
      _ ≤ 1 + maxRetries := by omega

/-- Claim C2 witness: concrete enqueue followed by two failures and an ACK. -/
theorem claim_C2_witness :
    (enqueue 10 5 ⟨[(0, ⟨0, none, [.TX, .RX, .SHARED], 0, 0, 0⟩)], []⟩
        ⟨.DATA, ⟨1, 2, none⟩⟩).state.txQueue.getLast? =
      some ⟨.DATA, ⟨1, 2, some 5⟩⟩ ∧
    countTxDone ⟨true, 5⟩ [false, false, true] ≤ 1 + 5 :=
  claim_C2 10 5 _ _ [false, false, true] (by decide)

end Tsch

namespace Engine

theorem evLE_trans {τ : Type} {a b c : Event τ} (h1 : evLE a b) (h2 : evLE b c) :
    evLE a c := by
  unfold evLE at *
  omega

theorem evLT_of_not_evLE {τ : Type} {a b : Event τ} (h : ¬evLE a b) : evLT b a := by
  unfold evLE at h
  unfold evLT
  omega

theorem evLE_of_evLT {τ : Type} {a b : Event τ} (h : evLT a b) : evLE a b := by
  unfold evLT at h
  unfold evLE
  omega

theorem evLT_of_evLT_of_evLE {τ : Type} {a b c : Event τ} (h1 : evLT a b)
    (h2 : evLE b c) : evLT a c := by
  unfold evLT at *
  unfold evLE at h2
  omega

theorem mem_insertEvent {τ : Type} (e : Event τ) (l : List (Event τ)) (y : Event τ) :
    y ∈ insertEvent e l ↔ y = e ∨ y ∈ l := by
  induction l with
  | nil => simp [insertEvent]
  | cons x xs ih =>
      unfold insertEvent
      split_ifs <;> simp only [List.mem_cons, ih] <;> tauto

theorem pairwise_insertEvent {τ : Type} (e : Event τ) (l : List (Event τ))
    (hs : l.Pairwise evLE) : (insertEvent e l).Pairwise evLE := by
  induction l with
  | nil => simp [insertEvent]
  | cons x xs ih =>
      rcases List.pairwise_cons.mp hs with ⟨hx, hxs⟩
      unfold insertEvent
      split_ifs with h
      · refine List.pairwise_cons.mpr ⟨?_, ih hxs⟩
        intro y hy
        rcases (mem_insertEvent e xs y).mp hy with rfl | hy'
        · exact h
        · exact hx y hy'
      · refine List.pairwise_cons.mpr ⟨?_, hs⟩
        intro y hy
        have hex : evLT e x := evLT_of_not_evLE h
        rcases List.mem_cons.mp hy with rfl | hy'
        · exact evLE_of_evLT hex
        · exact evLE_of_evLT (evLT_of_evLT_of_evLE hex (hx y hy'))

theorem insertEvent_split {τ : Type} (e : Event τ) (l : List (Event τ))
    (hs : l.Pairwise evLE) :
    ∃ l₁ l₂, insertEvent e l = l₁ ++ e :: l₂ ∧ l = l₁ ++ l₂ ∧
      (∀ x ∈ l₁, evLE x e) ∧ (∀ x ∈ l₂, evLT e x) := by
  induction l with
  | nil => exact ⟨[], [], rfl, rfl, by simp, by simp⟩
  | cons x xs ih =>
      rcases List.pairwise_cons.mp hs with ⟨hx, hxs⟩
      unfold insertEvent
      split_ifs with h
      · obtain ⟨l₁, l₂, h1, h2, h3, h4⟩ := ih hxs
        refine ⟨x :: l₁, l₂, by rw [List.cons_append, h1], by rw [List.cons_append, h2], ?_, h4⟩
        intro y hy
        rcases List.mem_cons.mp hy with rfl | hy'
        · exact h
        · exact h3 y hy'
      · have hex : evLT e x := evLT_of_not_evLE h
        refine ⟨[], x :: xs, rfl, rfl, by simp, ?_⟩
        intro y hy
        rcases List.mem_cons.mp hy with rfl | hy'
        · exact hex
        · exact evLT_of_evLT_of_evLE hex (hx y hy')

/-- Claim C5: `scheduleAtAsn(asn, cb, uniqueTag, priority)` fails by
assertion whenever `asn ≤` the current ASN; when a unique tag is given it
first removes exactly the queued events bearing that tag except those
scheduled at the current ASN; and the new event is inserted so that a
sorted event list stays sorted by `(asn, priority)` with the new event
placed after every event with an `(asn, priority)` key less than or equal
to its own — so events with equal ASN and priority run in insertion
order. -/
theorem claim_C5 {τ : Type} [DecidableEq τ] (cur asn priority : Nat) (t : τ)
    (events : List (Event τ)) (hs : events.Pairwise evLE) :
    (asn ≤ cur → scheduleAtAsn cur asn priority (some t) events = none)
    ∧ (∀ e, e ∈ removeEvent cur t true events ↔
        (e ∈ events ∧ ¬(e.tag = some t ∧ e.asn ≠ cur)))
    ∧ (cur < asn → ∃ l₁ l₂,
        scheduleAtAsn cur asn priority (some t) events =
          some (l₁ ++ ⟨asn, priority, some t⟩ :: l₂)
        ∧ removeEvent cur t true events = l₁ ++ l₂
        ∧ (l₁ ++ ⟨asn, priority, some t⟩ :: l₂).Pairwise evLE
        ∧ (∀ x ∈ l₁, evLE x ⟨asn, priority, some t⟩)
        ∧ (∀ x ∈ l₂, evLT ⟨asn, priority, some t⟩ x)) := by
  refine ⟨?_, ?_, ?_⟩
  · intro h
    unfold scheduleAtAsn
    rw [if_pos h]
  · intro e
    simp only [removeEvent, List.mem_filter, Bool.not_eq_true', Bool.and_eq_false_iff,
      Bool.not_eq_false', Bool.and_eq_true, beq_iff_eq, true_and]
    constructor
    · rintro ⟨hmem, hcond⟩
      refine ⟨hmem, ?_⟩
      rintro ⟨htag, hasn⟩
      rcases hcond with h | h
      · exact absurd htag (by simpa using h)
      · exact hasn (by simpa using h)
    · rintro ⟨hmem, hcond⟩
      refine ⟨hmem, ?_⟩
      by_cases htag : e.tag = some t
      · right
        have : e.asn = cur := by
          by_contra hne
          exact hcond ⟨htag, hne⟩
        simpa using this
      · left
        simpa using htag
  · intro h
    have hrem : (removeEvent cur t true events).Pairwise evLE :=
      List.Pairwise.filter _ hs
    obtain ⟨l₁, l₂, h1, h2, h3, h4⟩ :=
      insertEvent_split ⟨asn, priority, some t⟩ (removeEvent cur t true events) hrem
    refine ⟨l₁, l₂, ?_, h2, ?_, h3, h4⟩
    · unfold scheduleAtAsn
      rw [if_neg (by omega)]
      exact congrArg some h1
    · rw [← h1]
      exact pairwise_insertEvent _ _ hrem

/-- Claim C5 witness: scheduling at ASN 3 while the current ASN is 5 hits
the assertion. -/
theorem claim_C5_witness :
    scheduleAtAsn (τ := Nat) 5 3 0 (some 1) [] = none :=
  (claim_C5 5 3 0 1 [] List.Pairwise.nil).1 (by omega)

end Engine

namespace Rpl

theorem iterParent_succ_front (pc : ParentMap) (dest n : Nat) :
    iterParent pc dest (n + 1) =
      match pc dest with
      | none => none
      | some v => iterParent pc v n := by
  induction n with
  | zero => cases h : pc dest <;> simp [iterParent, h]
  | succ n ih =>
      show (iterParent pc dest (n + 1)).bind pc = _
      rw [ih]
      cases h : pc dest <;> simp [iterParent]

theorem iterParent_none_mono (pc : ParentMap) (dest : Nat) {n : Nat}
    (h : iterParent pc dest n = none) :
    ∀ m, n ≤ m → iterParent pc dest m = none := by
  intro m hm
  obtain ⟨k, rfl⟩ := Nat.exists_eq_add_of_le hm
  induction k with
  | zero => simpa using h
  | succ k ih =>
      show (iterParent pc dest (n + k)).bind pc = none
      rw [ih (by omega)]
      rfl

theorem iterParent_add (pc : ParentMap) (dest a : Nat) :
    ∀ b, iterParent pc dest (a + b) =
      (iterParent pc dest a).bind (fun c => iterParent pc c b) := by
  intro b
  induction b with
  | zero => cases h : iterParent pc dest a <;> simp [iterParent, h]
  | succ b ih =>
      show (iterParent pc dest (a + b)).bind pc = _
      rw [ih]
      cases h : iterParent pc dest a <;> simp [iterParent, h]

theorem loop_terminates_of_stops (pc : ParentMap) :
    ∀ (n cur : Nat) (acc : List Nat),
      (iterParent pc cur n = some 0 ∨
        (∃ c, iterParent pc cur n = some c ∧ pc c = none)) →
      ∃ r, sourceRouteLoop pc (n + 1) cur acc = some r := by
  intro n
  induction n with
  | zero =>
      intro cur acc h
      by_cases hc : cur = 0
      · subst hc
        exact ⟨some acc.reverse, rfl⟩
      · rcases h with h0 | ⟨c, hcv, hpc⟩
        · exact absurd (by simpa [iterParent] using h0) hc
        · have hcc : cur = c := by simpa [iterParent] using hcv
          subst hcc
          refine ⟨none, ?_⟩
          unfold sourceRouteLoop
          rw [if_neg hc, hpc]
  | succ n ih =>
      intro cur acc h
      by_cases hc : cur = 0
      · subst hc
        exact ⟨some acc.reverse, rfl⟩
      · cases hpc : pc cur with
        | none =>
            refine ⟨none, ?_⟩
            unfold sourceRouteLoop
            rw [if_neg hc, hpc]
        | some v =>
            have key : iterParent pc cur (n + 1) = iterParent pc v n := by
              rw [iterParent_succ_front, hpc]
            rw [key] at h
            obtain ⟨r, hr⟩ := ih v (acc ++ [cur]) h
            refine ⟨r, ?_⟩
            unfold sourceRouteLoop
            rw [if_neg hc, hpc]
            exact hr

theorem stops_of_loop_terminates (pc : ParentMap) :
    ∀ (fuel cur : Nat) (acc : List Nat) (r : Option (List Nat)),
      sourceRouteLoop pc fuel cur acc = some r →
      ∃ n, iterParent pc cur n = some 0 ∨
        (∃ c, iterParent pc cur n = some c ∧ c ≠ 0 ∧ pc c = none) := by
  intro fuel
  induction fuel with
  | zero =>
      intro cur acc r h
      exact absurd h (by simp [sourceRouteLoop])
  | succ fuel ih =>
      intro cur acc r h
      by_cases hc : cur = 0
      · exact ⟨0, Or.inl (by simp [iterParent, hc])⟩
      · cases hpc : pc cur with
        | none => exact ⟨0, Or.inr ⟨cur, rfl, hc, hpc⟩⟩
        | some v =>
            unfold sourceRouteLoop at h
            rw [if_neg hc, hpc] at h
            obtain ⟨n, hn⟩ := ih v (acc ++ [cur]) r h
            refine ⟨n + 1, ?_⟩
            have key : iterParent pc cur (n + 1) = iterParent pc v n := by
              rw [iterParent_succ_front, hpc]
            rw [key]
            exact hn

theorem loop_route_shape (pc : ParentMap) :
    ∀ (fuel cur : Nat) (acc route : List Nat),
      sourceRouteLoop pc fuel cur acc = some (some route) →
      (cur = 0 ∧ route = acc.reverse) ∨
        (cur ≠ 0 ∧ ∃ rest, route = (acc ++ cur :: rest).reverse) := by
  intro fuel
  induction fuel with
  | zero =>
      intro cur acc route h
      exact absurd h (by simp [sourceRouteLoop])
  | succ fuel ih =>
      intro cur acc route h
      by_cases hc : cur = 0
      · subst hc
        left
        refine ⟨rfl, ?_⟩
        have : (some (some acc.reverse) : Option (Option (List Nat))) = some (some route) := h
        simpa using this.symm
      · right
        refine ⟨hc, ?_⟩
        unfold sourceRouteLoop at h
        rw [if_neg hc] at h
        cases hpc : pc cur with
        | none =>
            rw [hpc] at h
            exact absurd h (by simp)
        | some v =>
            rw [hpc] at h
            rcases ih v (acc ++ [cur]) route h with ⟨hv, hroute⟩ | ⟨hv, rest, hroute⟩
            · exact ⟨[], by simpa using hroute⟩
            · refine ⟨v :: rest, ?_⟩
              rw [hroute]
              simp

theorem no_stop_of_cycle (pc : ParentMap) (dest i j : Nat) (hij : i < j)
    (hdef : iterParent pc dest i ≠ none)
    (heq : iterParent pc dest i = iterParent pc dest j)
    (h0 : ∀ k, k ≤ j → iterParent pc dest k ≠ some 0) :
    ∀ n, iterParent pc dest n ≠ none ∧ iterParent pc dest n ≠ some 0 := by
  have hdefj : iterParent pc dest j ≠ none := heq ▸ hdef
  have hdef_le : ∀ k, k ≤ j → iterParent pc dest k ≠ none := by
    intro k hk hnone
    exact hdefj (iterParent_none_mono pc dest hnone j hk)
  set p := j - i with hp
  have hp1 : 1 ≤ p := by omega
  have hper : ∀ q, iterParent pc dest (i + q) = iterParent pc dest (i + q % p) := by
    intro q
    induction q using Nat.strong_induction_on with
    | _ q ihq =>
        by_cases hq : q < p
        · rw [Nat.mod_eq_of_lt hq]
        · have hqp : p ≤ q := by omega
          have hstep : iterParent pc dest (i + q) = iterParent pc dest (i + (q - p)) := by
            have h1 : i + q = (i + p) + (q - p) := by omega
            have h2 : i + p = j := by omega
            rw [h1, iterParent_add, h2, ← heq, ← iterParent_add]
          rw [hstep, ihq (q - p) (by omega), Nat.mod_eq_sub_mod hqp]
  intro n
  by_cases hn : n ≤ j
  · exact ⟨hdef_le n hn, h0 n hn⟩
  · have hni : i ≤ n := by omega
    obtain ⟨q, rfl⟩ := Nat.exists_eq_add_of_le hni
    have hlt : i + q % p ≤ j := by
      have := Nat.mod_lt q (show 0 < p by omega)
      omega
    rw [hper q]
    exact ⟨hdef_le _ hlt, h0 _ hlt⟩

/-- Claim C10: `computeSourceRoute(dest_id)` terminates exactly when the
iterated `parentChildfromDAOs` lookup from `dest_id` reaches mote 0 or an
id with no entry (raising `NoSourceRouteError`); a returned route is the
visited chain reversed, ending at `dest_id`; and when a cycle not passing
through mote 0 is reachable from `dest_id`, the loop neither returns nor
raises for any iteration budget. -/
theorem claim_C10 (pc : ParentMap) (dest_id : Nat) :
    ((∃ fuel r, computeSourceRoute pc dest_id fuel = some r) ↔
      (∃ n, stopsAt pc dest_id n))
    ∧ (∀ fuel route, computeSourceRoute pc dest_id fuel = some (some route) →
        (dest_id = 0 → route = []) ∧
        (dest_id ≠ 0 → route.getLast? = some dest_id))
    ∧ ((∃ i j, i < j ∧ iterParent pc dest_id i ≠ none ∧
          iterParent pc dest_id i = iterParent pc dest_id j ∧
          (∀ k, k ≤ j → iterParent pc dest_id k ≠ some 0)) →
        ∀ fuel, computeSourceRoute pc dest_id fuel = none) := by
  have hiff : (∃ fuel r, computeSourceRoute pc dest_id fuel = some r) ↔
      (∃ n, stopsAt pc dest_id n) := by
    constructor
    · rintro ⟨fuel, r, h⟩
      obtain ⟨n, hn⟩ := stops_of_loop_terminates pc fuel dest_id [] r h
      exact ⟨n, hn⟩
    · rintro ⟨n, hn⟩
      have hn' : iterParent pc dest_id n = some 0 ∨
          (∃ c, iterParent pc dest_id n = some c ∧ pc c = none) := by
        rcases hn with h | ⟨c, hc1, _, hc3⟩
        · exact Or.inl h
        · exact Or.inr ⟨c, hc1, hc3⟩
      obtain ⟨r, hr⟩ := loop_terminates_of_stops pc n dest_id [] hn'
      exact ⟨n + 1, r, hr⟩
  refine ⟨hiff, ?_, ?_⟩
  · intro fuel route h
    rcases loop_route_shape pc fuel dest_id [] route h with ⟨h0, hroute⟩ | ⟨h0, rest, hroute⟩
    · constructor
      · intro _
        simpa using hroute
      · intro hne
        exact absurd h0 hne
    · constructor
      · intro hz
        exact absurd hz h0
      · intro _
        rw [hroute]
        simp only [List.nil_append, List.reverse_cons]
        rw [List.getLast?_concat]
  · rintro ⟨i, j, hij, hdef, heq, h0⟩ fuel
    have hno := no_stop_of_cycle pc dest_id i j hij hdef heq h0
    cases h : computeSourceRoute pc dest_id fuel with
    | none => rfl
    | some r =>
        exfalso
        obtain ⟨n, hn⟩ := hiff.mp ⟨fuel, r, h⟩
        rcases hn with hn | ⟨c, hc1, _, hc3⟩
        · exact (hno n).2 hn
        · have : iterParent pc dest_id (n + 1) = none := by
            show (iterParent pc dest_id n).bind pc = none
            rw [hc1]
            simpa using hc3
          exact (hno (n + 1)).1 this

/-- Claim C10 witness: with the DAO map `{1 ↦ 2, 2 ↦ 1}` (a cycle avoiding
mote 0), `computeSourceRoute(1)` makes no progress at any budget. -/
theorem claim_C10_witness :
    computeSourceRoute
      (fun n => if n = 1 then some 2 else if n = 2 then some 1 else none) 1 37 = none :=
  (claim_C10 _ 1).2.2 ⟨0, 2, by omega, by decide, by decide, by decide⟩ 37

end Rpl

namespace Lowpan

theorem fragLen_pos {m L : Nat} (hm : 0 < m) (i : Nat) : 0 < fragLen m L i := by
  unfold fragLen
  split_ifs with h
  · exact Nat.pos_of_ne_zero h.2
  · exact hm

theorem fragLen_of_ne_zero {m L i : Nat} (hi : i ≠ 0) : fragLen m L i = m := by
  unfold fragLen
  rw [if_neg]
  tauto

theorem offAt_strict_mono {m L : Nat} (hm : 0 < m) :
    ∀ {j i}, i < j → offAt m L i < offAt m L j := by
  intro j
  induction j with
  | zero => omega
  | succ j ih =>
      intro i hij
      have hstep : offAt m L j < offAt m L (j + 1) := by
        show offAt m L j < offAt m L j + fragLen m L j
        have := fragLen_pos (L := L) hm j
        omega
      rcases Nat.lt_succ_iff_lt_or_eq.mp hij with h | rfl
      · exact lt_trans (ih h) hstep
      · exact hstep

theorem sum_lens (m L : Nat) : ∀ i, ((List.range i).map (fragLen m L)).sum = offAt m L i := by
  intro i
  induction i with
  | zero => rfl
  | succ i ih =>
      rw [List.range_succ, List.map_append, List.sum_append, ih]
      simp [offAt]

theorem offAt_closed (m L : Nat) : ∀ i, offAt m L (i + 1) = fragLen m L 0 + i * m := by
  intro i
  induction i with
  | zero => simp [offAt]
  | succ i ih =>
      show offAt m L (i + 1) + fragLen m L (i + 1) = _
      rw [ih, fragLen_of_ne_zero (i := i + 1) (by omega)]
      ring

theorem ceil_facts {m L : Nat} (hm : 0 < m) (hL : m < L) :
    2 ≤ (L + m - 1) / m ∧ offAt m L ((L + m - 1) / m) = L := by
  have hqr : m * (L / m) + L % m = L := Nat.div_add_mod L m
  have hrm : L % m < m := Nat.mod_lt L hm
  by_cases hr : L % m = 0
  · have hLb : m * (L / m) = L := by
      rw [hr] at hqr
      simpa using hqr
    have hn : (L + m - 1) / m = L / m := by
      have hshape : L + m - 1 = (m - 1) + m * (L / m) := by rw [hLb]; omega
      rw [hshape, Nat.add_mul_div_left _ _ hm,
        Nat.div_eq_of_lt (show m - 1 < m by omega), Nat.zero_add]
    rw [hn]
    have hlen0 : fragLen m L 0 = m := by unfold fragLen; rw [if_neg (by tauto)]
    obtain ⟨q, hq⟩ : ∃ q, L / m = q := ⟨_, rfl⟩
    rw [hq] at hLb ⊢
    have hq2 : 2 ≤ q := by
      rcases Nat.lt_or_ge q 2 with h | h
      · have h0 : q = 0 ∨ q = 1 := by omega
        rcases h0 with h0 | h0 <;> rw [h0] at hLb <;> omega
      · exact h
    refine ⟨hq2, ?_⟩
    obtain ⟨q', rfl⟩ : ∃ q', q = q' + 1 := ⟨q - 1, by omega⟩
    rw [offAt_closed, hlen0]
    have hb : m * (q' + 1) = m + q' * m := by ring
    omega
  · obtain ⟨q, hq⟩ : ∃ q, L / m = q := ⟨_, rfl⟩
    obtain ⟨r, hrr⟩ : ∃ r, L % m = r := ⟨_, rfl⟩
    rw [hq, hrr] at hqr
    rw [hrr] at hrm hr
    have hmq : m * (q + 1) = m * q + m := by ring
    have hshape : L + m - 1 = (r - 1) + m * (q + 1) := by omega
    have hn : (L + m - 1) / m = q + 1 := by
      rw [hshape, Nat.add_mul_div_left _ _ hm,
        Nat.div_eq_of_lt (show r - 1 < m by omega), Nat.zero_add]
    rw [hn]
    have hlen0 : fragLen m L 0 = r := by
      unfold fragLen
      rw [hrr, if_pos ⟨rfl, hr⟩]
    have hq1 : 1 ≤ q := by
      rcases Nat.eq_zero_or_pos q with h0 | h
      · rw [h0] at hqr
        simp at hqr
        omega
      · exact h
    refine ⟨by omega, ?_⟩
    rw [offAt_closed, hlen0]
    have hb : m * q = q * m := by ring
    omega

theorem none_orElse' {α : Type} (f : Unit → Option α) : (Option.none.orElse f) = f () := rfl

theorem orElse_none' {α : Type} (x : Option α) : (x.orElse fun _ => none) = x := by
  cases x <;> rfl

theorem mkFragment_basic {App : Type} (m L tag n : Nat) (pkt : Packet App) (i off : Nat)
    (hd1 : pkt.net.datagram_size = none) (hd2 : pkt.net.datagram_tag = none)
    (hd3 : pkt.net.datagram_offset = none) :
    (mkFragment m L tag n pkt i off).type = .FRAG ∧
    (mkFragment m L tag n pkt i off).mac = pkt.mac ∧
    (mkFragment m L tag n pkt i off).net.datagram_size = some L ∧
    (mkFragment m L tag n pkt i off).net.datagram_tag = some tag ∧
    (mkFragment m L tag n pkt i off).net.datagram_offset = some off ∧
    (mkFragment m L tag n pkt i off).net.packet_length = some (fragLen m L i) := by
  refine ⟨rfl, rfl, ?_, ?_, ?_, rfl⟩ <;>
    · by_cases hi : i = 0 <;>
        simp [mkFragment, dictUpdate, emptyNet, hi, hd1, hd2, hd3, none_orElse',
          apply_ite]

theorem mkFragment_last_fields {App : Type} (m L tag n : Nat) (pkt : Packet App)
    (off : Nat) (hn : 2 ≤ n) :
    (mkFragment m L tag n pkt (n - 1) off).app = pkt.app ∧
    (mkFragment m L tag n pkt (n - 1) off).net.original_packet_type = some pkt.type := by
  have hne : n - 1 ≠ 0 := by omega
  constructor <;> simp [mkFragment, hne]

theorem mkFragment_first_strip {App : Type} (m L tag n : Nat) (pkt : Packet App)
    (off : Nat)
    (hd1 : pkt.net.datagram_size = none) (hd2 : pkt.net.datagram_tag = none)
    (hd3 : pkt.net.datagram_offset = none) :
    stripDatagramFields (mkFragment m L tag n pkt 0 off).net =
      { pkt.net with packet_length := some (fragLen m L 0) } := by
  simp [mkFragment, dictUpdate, stripDatagramFields, emptyNet, orElse_none',
    hd1, hd2, hd3]

theorem reassemble_mid {App : Type} (cfg : RCfg) (dtagv : Nat) (macv : Mac)
    (exp : Nat) (hexp : cfg.asn ≤ exp) (snet : NetHdr)
    (fl : List FragRec) (frag : Packet App) (dsize doff plen : Nat)
    (h1 : frag.mac = some macv) (h2 : frag.net.datagram_size = some dsize)
    (h3 : frag.net.datagram_offset = some doff) (h4 : frag.net.datagram_tag = some dtagv)
    (h5 : frag.net.packet_length = some plen)
    (hdup : doff ∉ fl.map (fun f => f.datagram_offset)) (hoff : doff ≠ 0)
    (hpart : (fl.map (fun f => f.fragment_length)).sum + plen < dsize) :
    reassemblePacket cfg [((macv.srcMac, dtagv), ⟨exp, some snet, fl⟩)] frag =
      ([((macv.srcMac, dtagv), ⟨exp, some snet, fl ++ [⟨doff, plen⟩]⟩)], .nothing) := by
  have hnl : ¬(exp < cfg.asn) := by omega
  unfold reassemblePacket
  rw [h1, h2, h3, h4, h5]
  simp [deleteExpired, lookupBuf, setBuf, eraseBuf, totalBuffers, hnl, hdup, hoff, hpart]

theorem reassemble_last {App : Type} (cfg : RCfg) (dtagv : Nat) (macv : Mac)
    (exp : Nat) (hexp : cfg.asn ≤ exp) (snet : NetHdr)
    (fl : List FragRec) (frag : Packet App) (dsize doff plen : Nat) (t : PktType)
    (h1 : frag.mac = some macv) (h2 : frag.net.datagram_size = some dsize)
    (h3 : frag.net.datagram_offset = some doff) (h4 : frag.net.datagram_tag = some dtagv)
    (h5 : frag.net.packet_length = some plen)
    (h6 : frag.net.original_packet_type = some t)
    (hdup : doff ∉ fl.map (fun f => f.datagram_offset)) (hoff : doff ≠ 0)
    (hfull : dsize ≤ (fl.map (fun f => f.fragment_length)).sum + plen) :
    reassemblePacket cfg [((macv.srcMac, dtagv), ⟨exp, some snet, fl⟩)] frag =
      ([], .completed
        { type := t
          app  := frag.app
          net  := { snet with packet_length := some dsize }
          mac  := frag.mac }) := by
  have hnl : ¬(exp < cfg.asn) := by omega
  have hnlt : ¬((fl.map (fun f => f.fragment_length)).sum + plen < dsize) := by omega
  unfold reassemblePacket
  rw [h1, h2, h3, h4, h5]
  simp [deleteExpired, lookupBuf, setBuf, eraseBuf, totalBuffers, hnl, hdup, hoff,
    hnlt, h6]

theorem reassemble_first {App : Type} (cfg : RCfg) (dtagv : Nat) (macv : Mac)
    (frag : Packet App) (dsize plen : Nat)
    (h1 : frag.mac = some macv) (h2 : frag.net.datagram_size = some dsize)
    (h3 : frag.net.datagram_offset = some 0) (h4 : frag.net.datagram_tag = some dtagv)
    (h5 : frag.net.packet_length = some plen)
    (hcap : cfg.dagRoot = true ∨ cfg.buffersNum ≠ 0)
    (hpart : plen < dsize) :
    reassemblePacket cfg [] frag =
      ([((macv.srcMac, dtagv),
          ⟨cfg.asn + cfg.lifetime, some (stripDatagramFields frag.net), [⟨0, plen⟩]⟩)],
        .nothing) := by
  have hcap' : (!cfg.dagRoot && totalBuffers (deleteExpired cfg.asn []) == cfg.buffersNum)
      = false := by
    rcases hcap with h | h
    · simp [h]
    · simp [deleteExpired, totalBuffers]
      intro
      omega
  unfold reassemblePacket
  rw [h1, h2, h3, h4, h5]
  simp only [deleteExpired, totalBuffers, List.filter_nil, List.length_nil] at hcap' ⊢
  simp [lookupBuf, setBuf, eraseBuf, hcap', hpart]

theorem fragLen_le {m L : Nat} (hm : 0 < m) (i : Nat) : fragLen m L i ≤ m := by
  unfold fragLen
  split_ifs with h
  · exact le_of_lt (Nat.mod_lt L hm)
  · exact le_rfl

theorem fragBuild_length {App : Type} (m L tag n : Nat) (pkt : Packet App) :
    ∀ k i off, (fragBuild m L tag n pkt k i off).length = k := by
  intro k
  induction k with
  | zero => intro i off; rfl
  | succ k ih =>
      intro i off
      show (fragBuild m L tag n pkt k (i + 1) (off + fragLen m L i)).length + 1 = k + 1
      rw [ih]

theorem fragBuild_sum_len {App : Type} (m L tag n : Nat) (pkt : Packet App)
    (hd1 : pkt.net.datagram_size = none) (hd2 : pkt.net.datagram_tag = none)
    (hd3 : pkt.net.datagram_offset = none) :
    ∀ k i,
      ((fragBuild m L tag n pkt k i (offAt m L i)).map
        (fun f => f.net.packet_length.getD 0)).sum + offAt m L i = offAt m L (i + k) := by
  intro k
  induction k with
  | zero => intro i; simp [fragBuild]
  | succ k ih =>
      intro i
      have hplen := (mkFragment_basic m L tag n pkt i (offAt m L i) hd1 hd2 hd3).2.2.2.2.2
      have hoffs : offAt m L i + fragLen m L i = offAt m L (i + 1) := rfl
      show ((mkFragment m L tag n pkt i (offAt m L i)).net.packet_length.getD 0 +
          ((fragBuild m L tag n pkt k (i + 1) (offAt m L i + fragLen m L i)).map
            (fun f => f.net.packet_length.getD 0)).sum) + offAt m L i = _
      rw [hplen, hoffs]
      simp only [Option.getD_some]
      have hih := ih (i + 1)
      have harange : i + 1 + k = i + (k + 1) := by omega
      rw [harange] at hih
      have hstep : offAt m L (i + 1) = offAt m L i + fragLen m L i := rfl
      omega

theorem feed_loop {App : Type} (cfg : RCfg) (m L tag n : Nat) (pkt : Packet App)
    (macv : Mac) (hm : 0 < m) (hL : m < L) (hmac : pkt.mac = some macv)
    (hd1 : pkt.net.datagram_size = none) (hd2 : pkt.net.datagram_tag = none)
    (hd3 : pkt.net.datagram_offset = none) (hn : n = (L + m - 1) / m) :
    ∀ k i, i + k = n → 1 ≤ i → 1 ≤ k →
      feedFrags cfg
        [((macv.srcMac, tag),
          ⟨cfg.asn + cfg.lifetime,
            some { pkt.net with packet_length := some (fragLen m L 0) },
            (List.range i).map (fun j => ⟨offAt m L j, fragLen m L j⟩)⟩)]
        (fragBuild m L tag n pkt k i (offAt m L i)) =
      ([], List.replicate (k - 1) ReasmOut.nothing ++
        [ReasmOut.completed
          { type := pkt.type, app := pkt.app,
            net := { pkt.net with packet_length := some L }, mac := pkt.mac }]) := by
  have hoffn : offAt m L n = L := by
    rw [hn]
    exact (ceil_facts hm hL).2
  have hn2 : 2 ≤ n := by
    rw [hn]
    exact (ceil_facts hm hL).1
  intro k
  induction k with
  | zero => intro i _ _ hk; omega
  | succ k ih =>
      intro i hik hi1 _
      obtain ⟨-, hmacf, hds, hdt, hdo, hpl⟩ :=
        mkFragment_basic m L tag n pkt i (offAt m L i) hd1 hd2 hd3
      have hmacf' : (mkFragment m L tag n pkt i (offAt m L i)).mac = some macv := by
        rw [hmacf, hmac]
      have hexp : cfg.asn ≤ cfg.asn + cfg.lifetime := by omega
      have hdup : offAt m L i ∉
          ((List.range i).map (fun j => (⟨offAt m L j, fragLen m L j⟩ : FragRec))).map
            (fun f => f.datagram_offset) := by
        rw [List.map_map]
        simp only [List.mem_map, Function.comp, List.mem_range]
        rintro ⟨j, hj, hje⟩
        exact absurd hje (ne_of_lt (offAt_strict_mono hm hj))
      have hoff0 : offAt m L i ≠ 0 := by
        have : offAt m L 0 < offAt m L i := offAt_strict_mono hm (by omega)
        simpa [offAt] using Nat.pos_iff_ne_zero.mp (by simpa [offAt] using this)
      have hsum : (((List.range i).map
          (fun j => (⟨offAt m L j, fragLen m L j⟩ : FragRec))).map
            (fun f => f.fragment_length)).sum = offAt m L i := by
        rw [List.map_map]
        exact sum_lens m L i
      by_cases hklast : k = 0
      · subst hklast
        have hin : i = n - 1 := by omega
        have hlast := mkFragment_last_fields m L tag n pkt (offAt m L i) hn2
        rw [← hin] at hlast
        have hin1 : i + 1 = n := by omega
        have hfull : L ≤ (((List.range i).map
            (fun j => (⟨offAt m L j, fragLen m L j⟩ : FragRec))).map
              (fun f => f.fragment_length)).sum + fragLen m L i := by
          rw [hsum]
          have h1 : offAt m L i + fragLen m L i = offAt m L (i + 1) := rfl
          rw [hin1] at h1
          omega
        show feedFrags cfg _ (mkFragment m L tag n pkt i (offAt m L i) :: fragBuild m L tag n pkt 0 (i + 1) _) = _
        simp only [feedFrags]
        rw [reassemble_last cfg tag macv (cfg.asn + cfg.lifetime) hexp
          { pkt.net with packet_length := some (fragLen m L 0) }
          _ _ L (offAt m L i) (fragLen m L i) pkt.type
          hmacf' hds hdo hdt hpl hlast.2 hdup hoff0 hfull]
        simp only [feedFrags]
        rw [hlast.1, hmacf]
        simp
      · have hk1 : 1 ≤ k := by omega
        have hpart : (((List.range i).map
            (fun j => (⟨offAt m L j, fragLen m L j⟩ : FragRec))).map
              (fun f => f.fragment_length)).sum + fragLen m L i < L := by
          rw [hsum]
          have h1 : offAt m L i + fragLen m L i = offAt m L (i + 1) := rfl
          have h2 : offAt m L (i + 1) < offAt m L n := offAt_strict_mono hm (by omega)
          omega
        show feedFrags cfg _ (mkFragment m L tag n pkt i (offAt m L i) :: fragBuild m L tag n pkt k (i + 1) _) = _
        simp only [feedFrags]
        rw [reassemble_mid cfg tag macv (cfg.asn + cfg.lifetime) hexp
          { pkt.net with packet_length := some (fragLen m L 0) }
          _ _ L (offAt m L i) (fragLen m L i)
          hmacf' hds hdo hdt hpl hdup hoff0 hpart]
        have hfr : ((List.range i).map (fun j => (⟨offAt m L j, fragLen m L j⟩ : FragRec))) ++
            [⟨offAt m L i, fragLen m L i⟩] =
            (List.range (i + 1)).map (fun j => (⟨offAt m L j, fragLen m L j⟩ : FragRec)) := by
          rw [List.range_succ, List.map_append]
          rfl
        rw [hfr]
        have hrec := ih (i + 1) (by omega) (by omega) hk1
        have hoffs : offAt m L i + fragLen m L i = offAt m L (i + 1) := rfl
        rw [hoffs, hrec]
        have hrepl : (ReasmOut.nothing : ReasmOut App) :: List.replicate (k - 1) ReasmOut.nothing =
            List.replicate k ReasmOut.nothing := by
          obtain ⟨k', rfl⟩ : ∃ k', k = k' + 1 := ⟨k - 1, by omega⟩
          simp [List.replicate_succ]
        simp only [← List.cons_append, hrepl]
        simp

/-- Claim C6: for a packet whose `packet_length` exceeds
`tsch_max_payload_len`, fragmenting and then feeding all the resulting
fragments, in order and without duplicates, to `reassemblePacket` yields
exactly the original packet back (same `type`, same `app` section, same
remaining `net` fields with `packet_length` restored, same `mac`), the
per-fragment `packet_length` values sum to the original `packet_length`,
and every intermediate call returns nothing. -/
theorem claim_C6 {App : Type} (cfg : RCfg) (m L tag : Nat) (pkt : Packet App)
    (macv : Mac) (hm : 0 < m) (hL : m < L)
    (hlen : pkt.net.packet_length = some L) (hmac : pkt.mac = some macv)
    (hd1 : pkt.net.datagram_size = none) (hd2 : pkt.net.datagram_tag = none)
    (hd3 : pkt.net.datagram_offset = none)
    (hcap : cfg.dagRoot = true ∨ cfg.buffersNum ≠ 0) :
    2 ≤ (L + m - 1) / m ∧
    (fragmentPacket m tag pkt).length = (L + m - 1) / m ∧
    ((fragmentPacket m tag pkt).map (fun f => f.net.packet_length.getD 0)).sum = L ∧
    feedFrags cfg [] (fragmentPacket m tag pkt) =
      ([], List.replicate ((L + m - 1) / m - 1) ReasmOut.nothing ++
        [ReasmOut.completed pkt]) := by
  obtain ⟨hn2, hoffn⟩ := ceil_facts (L := L) hm hL
  have hfrag : fragmentPacket m tag pkt =
      fragBuild m L tag ((L + m - 1) / m) pkt ((L + m - 1) / m) 0 0 := by
    unfold fragmentPacket
    rw [hlen]
    simp [hL]
  refine ⟨hn2, ?_, ?_, ?_⟩
  · rw [hfrag, fragBuild_length]
  · rw [hfrag]
    have hs := fragBuild_sum_len m L tag ((L + m - 1) / m) pkt hd1 hd2 hd3
      ((L + m - 1) / m) 0
    have h0 : offAt m L 0 = 0 := rfl
    rw [h0] at hs
    simp only [Nat.zero_add] at hs
    omega
  · rw [hfrag]
    obtain ⟨k, hk⟩ : ∃ k, (L + m - 1) / m = k + 1 := ⟨(L + m - 1) / m - 1, by omega⟩
    rw [hk]
    obtain ⟨-, hmacf, hds, hdt, hdo, hpl⟩ :=
      mkFragment_basic m L tag (k + 1) pkt 0 0 hd1 hd2 hd3
    have hmacf' : (mkFragment m L tag (k + 1) pkt 0 0).mac = some macv := by
      rw [hmacf, hmac]
    have hplen : fragLen m L 0 < L := lt_of_le_of_lt (fragLen_le hm 0) hL
    show feedFrags cfg []
        (mkFragment m L tag (k + 1) pkt 0 0 ::
          fragBuild m L tag (k + 1) pkt k 1 (0 + fragLen m L 0)) = _
    simp only [feedFrags]
    rw [reassemble_first cfg tag macv (mkFragment m L tag (k + 1) pkt 0 0) L
      (fragLen m L 0) hmacf' hds hdo hdt hpl hcap hplen]
    rw [mkFragment_first_strip m L tag (k + 1) pkt 0 hd1 hd2 hd3]
    have hsingle : [(⟨0, fragLen m L 0⟩ : FragRec)] =
        (List.range 1).map (fun j => (⟨offAt m L j, fragLen m L j⟩ : FragRec)) := by
      have h1 : List.range 1 = [0] := by decide
      rw [h1]
      rfl
    rw [hsingle]
    have hoff1 : (0 + fragLen m L 0) = offAt m L 1 := rfl
    rw [hoff1]
    have hrec := feed_loop cfg m L tag (k + 1) pkt macv hm hL hmac hd1 hd2 hd3
      hk.symm k 1 (by omega) le_rfl (by omega)
    rw [hrec]
    have hnet : { pkt.net with packet_length := some L } = pkt.net := by
      rw [← hlen]
    rw [hnet]
    have hpkt : ({ type := pkt.type, app := pkt.app, net := pkt.net, mac := pkt.mac } :
        Packet App) = pkt := rfl
    rw [hpkt]
    have hrepl : (ReasmOut.nothing : ReasmOut App) ::
        (List.replicate (k - 1) ReasmOut.nothing ++ [ReasmOut.completed pkt]) =
        List.replicate k ReasmOut.nothing ++ [ReasmOut.completed pkt] := by
      obtain ⟨k', rfl⟩ : ∃ k', k = k' + 1 := ⟨k - 1, by omega⟩
      simp [List.replicate_succ]
    simp only [hrepl]
    simp

/-- Claim C6 witness: a 5-byte packet cut at payload limit 2 yields three
fragments that reassemble to the original packet. -/
theorem claim_C6_witness :
    2 ≤ (5 + 2 - 1) / 2 ∧
    (fragmentPacket 2 9 samplePacket).length = (5 + 2 - 1) / 2 ∧
    ((fragmentPacket 2 9 samplePacket).map
      (fun f => f.net.packet_length.getD 0)).sum = 5 ∧
    feedFrags sampleCfg [] (fragmentPacket 2 9 samplePacket) =
      ([], List.replicate ((5 + 2 - 1) / 2 - 1) ReasmOut.nothing ++
        [ReasmOut.completed samplePacket]) :=
  claim_C6 sampleCfg 2 5 9 samplePacket ⟨1, 2⟩ (by decide) (by decide) rfl rfl rfl
    rfl rfl (Or.inr (by decide))

end Lowpan

namespace Conn

theorem table_bounds (k : ℤ) (h1 : -97 ≤ k) (h2 : k ≤ -80) :
    0 ≤ rssi_pdr_table k ∧ rssi_pdr_table k ≤ rssi_pdr_table (k + 1) ∧
      rssi_pdr_table (k + 1) ≤ 1 := by
  interval_cases k <;> norm_num [rssi_pdr_table]

theorem rssi_to_pdr_mem (x : ℝ) : 0 ≤ rssi_to_pdr x ∧ rssi_to_pdr x ≤ 1 := by
  unfold rssi_to_pdr
  split_ifs with h1 h2
  · norm_num
  · norm_num
  · push_neg at h1 h2
    by_cases hx : x = -79
    · have hf : ⌊x⌋ = -79 := by rw [hx]; norm_num
      rw [hf, hx]
      norm_num [rssi_pdr_table]
    · have hxlt : x < -79 := lt_of_le_of_ne h2 hx
      have hfl : (⌊x⌋ : ℝ) ≤ x := Int.floor_le x
      have hfu : x < ⌊x⌋ + 1 := Int.lt_floor_add_one x
      have hk1 : -97 ≤ ⌊x⌋ := by
        rw [Int.le_floor]
        exact_mod_cast h1
      have hk2 : ⌊x⌋ ≤ -80 := by
        have : (⌊x⌋ : ℝ) < -79 := lt_of_le_of_lt hfl hxlt
        have h80 : ⌊x⌋ < -79 := by exact_mod_cast this
        omega
      obtain ⟨htl, htm, hth⟩ := table_bounds ⌊x⌋ hk1 hk2
      have hfrac0 : 0 ≤ x - (⌊x⌋ : ℝ) := by linarith
      have hfrac1 : x - (⌊x⌋ : ℝ) ≤ 1 := by linarith
      have hd : 0 ≤ rssi_pdr_table (⌊x⌋ + 1) - rssi_pdr_table ⌊x⌋ := by linarith
      constructor
      · show 0 ≤ (rssi_pdr_table (⌊x⌋ + 1) - rssi_pdr_table ⌊x⌋) * (x - (⌊x⌋ : ℝ)) +
          rssi_pdr_table ⌊x⌋
        have := mul_nonneg hd hfrac0
        linarith
      · show (rssi_pdr_table (⌊x⌋ + 1) - rssi_pdr_table ⌊x⌋) * (x - (⌊x⌋ : ℝ)) +
          rssi_pdr_table ⌊x⌋ ≤ 1
        have := mul_le_mul_of_nonneg_left hfrac1 hd
        linarith

/-- Claim C1 is false on the code: when the locked-on signal power in mW is
below the noise power, `_compute_pdr_with_interference` returns the literal
`-10.0` — it does not proceed through the RSSI→PDR table, and the returned
value is not in `[0, 1]`.  Concrete input: noise −105 dBm, locked-on RSSI
−1000 dBm (the matrix default), no interferers, stored link PDR 1. -/
theorem claim_C1_counterexample :
    compute_pdr_with_interference (-105) (-1000) [] 1 = -10 ∧
    ¬(0 ≤ compute_pdr_with_interference (-105) (-1000) [] 1) := by
  have hsig : dBm_to_mW (-1000) - dBm_to_mW (-105) < 0 := by
    have hlt : dBm_to_mW (-1000) < dBm_to_mW (-105) := by
      unfold dBm_to_mW
      rw [Real.rpow_lt_rpow_left_iff (by norm_num)]
      norm_num
    linarith
  have hres : compute_pdr_with_interference (-105) (-1000) [] 1 = -10 := by
    unfold compute_pdr_with_interference
    rw [if_pos hsig]
  refine ⟨hres, ?_⟩
  rw [hres]
  norm_num

/-- Claim C1 (amended): when the locked-on signal power in mW falls below
the noise power, `_compute_pdr_with_interference` returns the literal
`-10.0` (the code comment says "return very low SINR"), so the uniform
draw — which is non-negative — never succeeds and the packet is never
delivered; otherwise the function computes the SINR, converts it back to
an equivalent RSSI under pure-noise conditions, maps it through the
piecewise-linear RSSI→PDR table and multiplies by the link's stored `pdr`,
producing a value in `[0, 1]` whenever the stored `pdr` is. -/
theorem claim_C1 (noise rssi : ℝ) (interferers : List ℝ) (lockon_pdr : ℝ) :
    (dBm_to_mW rssi - dBm_to_mW noise < 0 →
      compute_pdr_with_interference noise rssi interferers lockon_pdr = -10 ∧
      ∀ draw : ℝ, 0 ≤ draw →
        ¬ delivers draw (compute_pdr_with_interference noise rssi interferers lockon_pdr))
    ∧ (¬(dBm_to_mW rssi - dBm_to_mW noise < 0) → 0 ≤ lockon_pdr → lockon_pdr ≤ 1 →
      0 ≤ compute_pdr_with_interference noise rssi interferers lockon_pdr ∧
      compute_pdr_with_interference noise rssi interferers lockon_pdr ≤ 1) := by
  constructor
  · intro hsig
    have hres : compute_pdr_with_interference noise rssi interferers lockon_pdr = -10 := by
      unfold compute_pdr_with_interference
      rw [if_pos hsig]
    refine ⟨hres, ?_⟩
    intro draw hdraw
    rw [hres]
    unfold delivers
    linarith
  · intro hsig hp0 hp1
    have hres : compute_pdr_with_interference noise rssi interferers lockon_pdr =
        lockon_pdr * rssi_to_pdr (mW_to_dBm
          (dBm_to_mW
            (mW_to_dBm ((dBm_to_mW rssi - dBm_to_mW noise) /
              ((interferers.map (fun r =>
                  let interference_mW := dBm_to_mW r - dBm_to_mW noise
                  if interference_mW < 0 then 0 else interference_mW)).sum +
                dBm_to_mW noise)) + noise) +
            dBm_to_mW noise)) := by
      unfold compute_pdr_with_interference
      rw [if_neg hsig]
    rw [hres]
    obtain ⟨hr0, hr1⟩ := rssi_to_pdr_mem (mW_to_dBm
      (dBm_to_mW
        (mW_to_dBm ((dBm_to_mW rssi - dBm_to_mW noise) /
          ((interferers.map (fun r =>
              let interference_mW := dBm_to_mW r - dBm_to_mW noise
              if interference_mW < 0 then 0 else interference_mW)).sum +
            dBm_to_mW noise)) + noise) +
        dBm_to_mW noise))
    constructor
    · exact mul_nonneg hp0 hr0
    · calc lockon_pdr * rssi_to_pdr _ ≤ 1 * 1 :=
            mul_le_mul hp1 hr1 hr0 (by norm_num)
        _ = 1 := by norm_num

/-- Claim C1 witness: noise −105 dBm, locked-on RSSI −1000 dBm, no
interferers, stored PDR 1/2 — the function returns −10 and a draw of 1/3
never delivers. -/
theorem claim_C1_witness :
    compute_pdr_with_interference (-105) (-1000) [] (1/2) = -10 ∧
    ¬ delivers (1/3) (compute_pdr_with_interference (-105) (-1000) [] (1/2)) := by
  have hsig : dBm_to_mW (-1000) - dBm_to_mW (-105) < 0 := by
    have hlt : dBm_to_mW (-1000) < dBm_to_mW (-105) := by
      unfold dBm_to_mW
      rw [Real.rpow_lt_rpow_left_iff (by norm_num)]
      norm_num
    linarith
  have h := (claim_C1 (-105) (-1000) [] (1/2)).1 hsig
  exact ⟨h.1, h.2 (1/3) (by norm_num)⟩

end Conn

end Sim
